import Mathlib

/-!
# Verification of the divan/simulation propagation core

Shallow embedding of the `naivep2p` propagation engine (`Simulator`,
`SendMessage`, `runNode`, `propagateMessage`, `sendMessage`), of the
event-collection epilogue of the `whisperv6` adapter, and of the `stats`
trace analyzer (`analyzeNodeHits`, `analyzeNodeCoverage`).

Modelling notes for the concurrent engine:
* Each Go node goroutine owns a dedup `cache` and an `alive` flag
  (`runNode` has returned iff `alive = false`).
* A `go sendMessage(from, to, msg)` goroutine blocked on the unbuffered
  channel `nodesCh[to]` is an in-flight `Flight`.  Delivery is a
  rendezvous: it happens only while the destination goroutine is still
  in its receive loop (`alive`), and the log entry is reported right
  after the channel handoff, before the receiver's dedup check —
  so delivery always appends one entry, duplicate or not.
* The 10-second idle timer of `runNode` is abstracted into a `timeout`
  transition that may kill an alive node at any point (a separate
  timed model of a single node, `TNode`, accounts for the deadline).
* `Flight.hop` and `LogEntry.hop` are ghost observation fields counting
  the forwarding depth (seed fan-out = hop 1); no transition guard or
  update reads them, they only instrument the statements about hop
  counts.  The wall-clock timestamp of the Go `LogEntry` is not
  modelled.
* TTL is `Int`, as in Go (`TTL int`), so that decrementing a
  non-positive TTL goes negative instead of saturating.
-/

namespace naivep2p

/-- Go `Message` from the naivep2p package: dedup content key and
remaining hop budget (Go `int`). -/
structure Message where
  content : String
  ttl : Int
deriving DecidableEq, Repr

/-- One in-flight `go s.sendMessage(from, to, message)` goroutine:
dispatched on the unbuffered channel of node `dst` but not yet
received.  `hop` is a ghost forwarding-depth counter (seed = 1). -/

structure Flight where
  src : Nat
  dst : Nat
  msg : Message
  hop : Nat
deriving DecidableEq, Repr

/-- The (from, to) pair a `sendMessage` call reports on `reportCh`;
`hop` is the ghost depth of the corresponding flight (the Go entry
carries a wall-clock timestamp instead, which we do not model). -/

structure LogEntry where
  src : Nat
  dst : Nat
  hop : Nat
deriving DecidableEq, Repr

/-- Local state of one `runNode` goroutine: its dedup cache and
whether it is still in its receive loop. -/

structure NodeState where
  cache : List String
  alive : Bool
deriving DecidableEq, Repr

/-- Global state of one propagation round: per-node states, the
multiset of undelivered dispatches, and the collected report log. -/

structure SimState where
  nodes : List NodeState
  flights : List Flight
  log : List LogEntry
deriving DecidableEq, Repr

/-- The naivep2p `Simulator` record: node count, precalculated peer
table, the accepted fan-out width `peersToSendTo`, and the
propagation delay (opaque here: the delay only pauses the forwarding
goroutine). -/

structure Simulator where
  n : Nat
  peers : Nat → List Nat
  peersToSendTo : Nat
  delay : Nat

/-- Modelled from the spec: `PrecalculatePeers` is not under `src/`;
per section 4.1, for every link (a,b) it adds b to peers[a] and a to
peers[b], without deduplicating parallel links.  A missing key of the
Go map reads as the empty list. -/

def PrecalculatePeers : List (Nat × Nat) → Nat → List Nat
  | [], _ => []
  | (a, b) :: rest, i =>
      (if i = a then [b] else []) ++ (if i = b then [a] else []) ++
        PrecalculatePeers rest i

/-- Constructor `NewSimulator(data, N, delay)`: stores the graph-derived peer
table and the fan-out width `N` in the `peersToSendTo` field. -/

def NewSimulator (nodeCount : Nat) (links : List (Nat × Nat)) (N : Nat)
    (delay : Nat) : Simulator :=
  { n := nodeCount
    peers := PrecalculatePeers links
    peersToSendTo := N
    delay := delay }

/-- Fan-out `propagateMessage(from, message)`: spawns one `sendMessage`
goroutine per entry of `peers[from]` — the whole precalculated peer
list, `peersToSendTo` is not consulted.  Returns the spawned
flights; `hop` is the ghost depth of this fan-out. -/

def propagateMessage (sim : Simulator) (src : Nat) (msg : Message)
    (hop : Nat) : List Flight :=
  (sim.peers src).map (fun p => { src := src, dst := p, msg := msg, hop := hop })

/-- State of node `i`, if it exists. -/

def nodeAt (s : SimState) (i : Nat) : Option NodeState :=
  s.nodes.get? i

/-- Whether node `i` exists and its goroutine is still receiving. -/

def aliveAt (s : SimState) (i : Nat) : Bool :=
  match s.nodes.get? i with
  | some ns => ns.alive
  | none => false

/-- Dedup cache of node `i` (empty if out of range). -/

def cacheOf (s : SimState) (i : Nat) : List String :=
  match s.nodes.get? i with
  | some ns => ns.cache
  | none => []

/-- One receive iteration of `runNode i` consuming the dispatched
flight `f` (with `f.dst = i`), fused with the reporting half of the
`sendMessage` goroutine that the rendezvous unblocks:

* the channel handoff succeeds, so one log entry `(f.src, f.dst)` is
  reported regardless of what the receiver then does;
* if `message.Content` is cached, the receiver drops the message
  (`continue`) — no state change;
* otherwise it caches the content and decrements `TTL`; if the
  decremented `TTL` equals zero the goroutine returns (hop-budget
  exhaustion), else it calls `propagateMessage(i, message)`. -/

def runNodeStep (sim : Simulator) (s : SimState) (f : Flight) : SimState :=
  match s.nodes.get? f.dst with
  | none => s
  | some ns =>
      let flights0 := s.flights.erase f
      let log0 := s.log ++ [{ src := f.src, dst := f.dst, hop := f.hop }]
      if f.msg.content ∈ ns.cache then
        { s with flights := flights0, log := log0 }
      else
        let ns1 : NodeState := { ns with cache := f.msg.content :: ns.cache }
        let ttl1 : Int := f.msg.ttl - 1
        if ttl1 = 0 then
          { nodes := s.nodes.set f.dst { ns1 with alive := false }
            flights := flights0
            log := log0 }
        else
          { nodes := s.nodes.set f.dst ns1
            flights := flights0 ++
              propagateMessage sim f.dst { content := f.msg.content, ttl := ttl1 }
                (f.hop + 1)
            log := log0 }

/-- Timer case of the select, `case <-t.C: return`: the idle timer of node `i` fires and its
goroutine returns, leaving its cache as is. -/

def killNode (s : SimState) (i : Nat) : SimState :=
  match s.nodes.get? i with
  | none => s
  | some ns => { s with nodes := s.nodes.set i { ns with alive := false } }

/-- Transition labels of one round. -/

inductive Label where
  | deliver (f : Flight)
  | timeout (i : Nat)
deriving DecidableEq, Repr

/-- Interleaving semantics of one propagation round.  A `deliver`
needs the destination goroutine to still be in its receive loop
(the unbuffered channel send of a dispatch to a returned goroutine
blocks forever); a `timeout` abstracts the 10-second idle timer. -/

inductive Step (sim : Simulator) : SimState → Label → SimState → Prop where
  | deliver (s : SimState) (f : Flight) :
      f ∈ s.flights → aliveAt s f.dst = true →
      Step sim s (Label.deliver f) (runNodeStep sim s f)
  | timeout (s : SimState) (i : Nat) :
      aliveAt s i = true →
      Step sim s (Label.timeout i) (killNode s i)

/-- A finite execution; each element of the list records the state a
step was taken from together with its label. -/

inductive Trace (sim : Simulator) : SimState → List (SimState × Label) → SimState → Prop where
  | nil (s : SimState) : Trace sim s [] s
  | cons {s s1 s2 : SimState} {l : Label} {tr : List (SimState × Label)} :
      Step sim s l s1 → Trace sim s1 tr s2 → Trace sim s ((s, l) :: tr) s2

/-- Entry of `SendMessage(startNodeIdx, ttl)` before the collection loop:
builds `Message{Content: "dummy", TTL: ttl}` and hands it to the
start node's `propagateMessage` directly — no decrement, and the
start node's own cache is not touched. -/

def initState (sim : Simulator) (startNodeIdx : Nat) (ttl : Int) : SimState :=
  { nodes := List.replicate sim.n { cache := [], alive := true }
    flights := propagateMessage sim startNodeIdx { content := "dummy", ttl := ttl } 1
    log := [] }

/-- After `wg.Wait()` has returned: every `runNode` goroutine is done. -/

def Terminal (s : SimState) : Prop :=
  ∀ ns ∈ s.nodes, ns.alive = false

instance (s : SimState) : Decidable (Terminal s) :=
  List.decidableBAll _ s.nodes

/-- The round `SendMessage(startNodeIdx, ttl)` can return the report
list `log`: some complete interleaving collects exactly it. -/

def SendMessageReturns (sim : Simulator) (startNodeIdx : Nat) (ttl : Int)
    (log : List LogEntry) : Prop :=
  ∃ tr s, Trace sim (initState sim startNodeIdx ttl) tr s ∧ Terminal s ∧ s.log = log

/-- The epilogue of naivep2p `SendMessage`: once `done` fires it
returns `logEntries2PropagationLog(ret)` unconditionally — there is
no error path, no emptiness check.  The `Except` codomain makes the
absence of any abort explicit. -/

def sendMessageEpilogue (entries : List LogEntry) : Except String (List LogEntry) :=
  Except.ok entries

/-- A recorded step is a processing of content `c` at node `i`: a
delivery to `i` whose content `c` was not yet in the dedup cache of
`i` when the step was taken. -/
def isProcessing (i : Nat) (c : String) : SimState × Label → Bool
  | (s, Label.deliver f) => decide (f.dst = i ∧ f.msg.content = c ∧ c ∉ cacheOf s i)
  | (_, Label.timeout _) => false

/-- Invariant of a round seeded with budget `t`: every undelivered
dispatch still has a positive TTL, and its TTL plus its forwarding
depth is `t + 1` (the seed is dispatched undecremented at depth 1). -/
def FlightInv (t : Int) (s : SimState) : Prop :=
  ∀ f ∈ s.flights, 1 ≤ f.msg.ttl ∧ f.msg.ttl + (f.hop : Int) = t + 1

/-- Invariant: every reported hop of the round has depth at most `t`. -/

def LogHopInv (t : Int) (s : SimState) : Prop :=
  ∀ e ∈ s.log, (e.hop : Int) ≤ t

/-- Invariant of a round seeded with `t ≤ 0`: every undelivered
dispatch has a non-positive TTL, so every decrement lands strictly
below zero and the `TTL == 0` exhaustion test never fires. -/
def NonposInv (s : SimState) : Prop :=
  ∀ f ∈ s.flights, f.msg.ttl ≤ 0

/-- A recorded step is a hop-budget-exhaustion termination: a
delivery that passes the dedup check and whose decremented TTL equals
zero, making the receiving goroutine return. -/

def isHopExhaustion : SimState × Label → Bool
  | (s, Label.deliver f) =>
      decide (f.msg.content ∉ cacheOf s f.dst ∧ f.msg.ttl - 1 = 0)
  | (_, Label.timeout _) => false

/-- Number of node goroutines still running (the waitgroup count). -/
def aliveCount (s : SimState) : Nat :=
  s.nodes.countP (fun ns => ns.alive)

/-- The (from, to) pair of an undelivered dispatch. -/
def pairOfFlight (f : Flight) : Nat × Nat := (f.src, f.dst)

/-- The (from, to) pair of a report entry. -/

def pairOfEntry (e : LogEntry) : Nat × Nat := (e.src, e.dst)

/-- Invariant of a round seeded with ttl = 1 and seed pair multiset
`seed`: every dispatch is an original one-hop seed dispatch, every
report is one-hop, and the dispatches still in flight together with
the reports already collected are exactly the seed fan-out. -/
def OneHopInv (seed : List (Nat × Nat)) (s : SimState) : Prop :=
  (∀ f ∈ s.flights, f.msg.ttl = 1 ∧ f.hop = 1) ∧
  (∀ e ∈ s.log, e.hop = 1) ∧
  List.Perm (s.flights.map pairOfFlight ++ s.log.map pairOfEntry) seed

/-- The fixed quiescence window: `time.NewTimer(10 * time.Second)`. -/

def idleTimeout : Nat := 10

/-- Timed state of one `runNode` goroutine.  `deadline` is the instant
the timer created at the top of `runNode` fires; `inbox` is the queue
of senders blocked on the node's unbuffered channel. -/

structure TNodeState where
  now : Nat
  deadline : Nat
  cache : List String
  inbox : List Message
  alive : Bool
deriving DecidableEq, Repr

/-- Entry of `runNode`: the timer is created once, when the goroutine
starts, with the fixed 10-second window. -/

def TNodeStart (startTime : Nat) : TNodeState :=
  { now := startTime
    deadline := startTime + idleTimeout
    cache := []
    inbox := []
    alive := true }

/-- The receive case of the `select`: pop the head blocked sender and
process its message exactly as `runNode` does (forward targets are
outside this single-node view). -/

def tnodeRecv (s : TNodeState) (m : Message) (rest : List Message) : TNodeState :=
  if m.content ∈ s.cache then
    { s with inbox := rest }
  else if m.ttl - 1 = 0 then
    { s with inbox := rest, cache := m.content :: s.cache, alive := false }
  else
    { s with inbox := rest, cache := m.content :: s.cache }

/-- Labels of the timed single-node system. -/

inductive TLabel where
  | tick
  | arrive (m : Message)
  | recv
  | fire
deriving DecidableEq, Repr

/-- Timed transitions of one node goroutine.  `recv` is enabled
whenever a sender is blocked on the channel, with no condition on the
clock; `fire` is enabled exactly when the clock has passed the
deadline fixed at start — with no condition on the inbox, because the
Go `select` chooses freely between a ready channel send and the
expired timer. -/

inductive TStep : TNodeState → TLabel → TNodeState → Prop where
  | tick (s : TNodeState) :
      TStep s TLabel.tick { s with now := s.now + 1 }
  | arrive (s : TNodeState) (m : Message) :
      TStep s (TLabel.arrive m) { s with inbox := s.inbox ++ [m] }
  | recv (s : TNodeState) (m : Message) (rest : List Message) :
      s.alive = true → s.inbox = m :: rest →
      TStep s TLabel.recv (tnodeRecv s m rest)
  | fire (s : TNodeState) :
      s.alive = true → s.deadline ≤ s.now →
      TStep s TLabel.fire { s with alive := false }

end naivep2p

namespace whisperv6

/-- A network event as observed by the collection loop of the
whisperv6 `SendMessage`: whether it is a message event, its code,
protocol, the `Received` flag, and the two node indices already
resolved through `ncache`. -/
structure Event where
  isMsg : Bool
  code : Nat
  protocol : String
  received : Bool
  one : Nat
  other : Nat
deriving DecidableEq, Repr

/-- The collection loop body: an event contributes one (from, to)
entry exactly when it is a `Msg` event with `Code == 1`,
`Protocol == "shh"` and `Received == false`. -/

def collectLoop (events : List Event) : List (Nat × Nat) :=
  events.filterMap (fun e =>
    if e.isMsg = true ∧ e.code = 1 ∧ e.protocol = "shh" ∧ e.received = false
    then some (e.one, e.other) else none)

/-- The epilogue of whisperv6 `SendMessage`: `hasEvents` is true iff
the loop collected at least one entry; if it is still false the round
aborts loudly (`log.Fatal`), otherwise the collected entries are
returned. -/

def sendMessageEpilogue (events : List Event) : Except String (List (Nat × Nat)) :=
  if (collectLoop events).isEmpty then
    Except.error "did not get any events, something wrong with simulator"
  else
    Except.ok (collectLoop events)

end whisperv6

namespace stats

/-- Coverage as an actual/total pair. -/
structure Coverage where
  actual : Nat
  total : Nat
deriving DecidableEq, Repr

/-- Constructor `NewCoverage(actual, total)` (the constructor itself is not under
`src/`, but it is a plain record build used by `stats.go`). -/

def NewCoverage (actual total : Nat) : Coverage :=
  { actual := actual, total := total }

/-- Increment `nodeHits[id]++` on the Go `map[string]int`, as an association
list keyed by stable node identifier: the first entry with the key is
incremented, a missing key is appended with count 1. -/

def bump : List (String × Nat) → String → List (String × Nat)
  | [], id => [(id, 1)]
  | (k, v) :: rest, id =>
      if k = id then (k, v + 1) :: rest else (k, v) :: bump rest id

/-- Read access `nodeHits[id]` (0 when the key is absent, as for a Go
map). -/

def hitsOf : List (String × Nat) → String → Nat
  | [], _ => 0
  | (k, v) :: rest, id => if k = id then v else hitsOf rest id

/-- The keys of the hit map. -/

def keys (m : List (String × Nat)) : List String :=
  m.map Prod.fst

/-- Lookup `g.NodeIDByIdx(j)`: stable identifier of simulation index `j` in
the topology's ordered identifier list. -/

def NodeIDByIdx (g : List String) (j : Nat) : Option String :=
  g.get? j

/-- The double loop of `analyzeNodeHits` over `plog.Nodes`, taken on
the flattened occurrence list: each receiver index is resolved to its
stable identifier (`log.Fatal` when the lookup fails) and receives
one hit. -/

def nodeHitsLoop (g : List String) : List Nat → List (String × Nat) →
    Except String (List (String × Nat))
  | [], m => Except.ok m
  | j :: rest, m =>
      match NodeIDByIdx g j with
      | none => Except.error "Stats: node index not found"
      | some id => nodeHitsLoop g rest (bump m id)

/-- Function `analyzeNodeHits(g, plog)`, hit-map part (the histogram half of
the Go function is untouched by the claims). -/

def analyzeNodeHits (g : List String) (plogNodes : List (List Nat)) :
    Except String (List (String × Nat)) :=
  nodeHitsLoop g plogNodes.join []

/-- Function `analyzeNodeCoverage(g, nodeHits)`: actual is the number of keys
of the hit map, total the number of topology nodes. -/

def analyzeNodeCoverage (g : List String) (nodeHits : List (String × Nat)) :
    Coverage :=
  NewCoverage nodeHits.length g.length

/-- Modelled from the spec: `logEntries2PropagationLog` and the
`propagation.Log` type are not under `src/`.  Per spec sections 3,
4.5 and 4.6 the assembled log carries per-node arrival index lists
whose occurrences are exactly the receivers (`toIndex`) of the
entries; `analyzeNodeHits` only iterates over all occurrences, so
the grouping is kept as a single list of receivers. -/

def logEntries2PropagationLog (entries : List naivep2p.LogEntry) : List (List Nat) :=
  [entries.map (fun e => e.dst)]

end stats

/-! ### Concrete fixtures -/

/-- Two nodes joined by one link (0, 1); fan-out width 4, delay 0. -/
def sim2 : naivep2p.Simulator := naivep2p.NewSimulator 2 [(0, 1)] 4 0

/-- Two nodes joined by two parallel links (0, 1); the peer table of
node 0 lists node 1 twice. -/
def sim2p : naivep2p.Simulator := naivep2p.NewSimulator 2 [(0, 1), (0, 1)] 4 0

/-- The seed dispatch of a ttl = 1 round from node 0 towards node 1. -/
def f01 : naivep2p.Flight := ⟨0, 1, ⟨"dummy", 1⟩, 1⟩

/-- States of a ttl = 1 round of `sim2` in which the seed is
delivered and then the start node idles out. -/
def st2a : naivep2p.SimState := naivep2p.initState sim2 0 1

def st2b : naivep2p.SimState := naivep2p.runNodeStep sim2 st2a f01

def st2c : naivep2p.SimState := naivep2p.killNode st2b 0

/-- The dispatches arising in a ttl = 0 round of `sim2`: the seed,
then the fan-out of node 1 (TTL decremented to -1), then the fan-out
of node 0 (TTL decremented to -2). -/
def g01 : naivep2p.Flight := ⟨0, 1, ⟨"dummy", 0⟩, 1⟩

def g10 : naivep2p.Flight := ⟨1, 0, ⟨"dummy", -1⟩, 2⟩

def g01b : naivep2p.Flight := ⟨0, 1, ⟨"dummy", -2⟩, 3⟩

/-- States of a ttl = 0 round of `sim2`: three deliveries (the third
dropped as a duplicate) and two idle timeouts. -/
def st0a : naivep2p.SimState := naivep2p.initState sim2 0 0

def st0b : naivep2p.SimState := naivep2p.runNodeStep sim2 st0a g01

def st0c : naivep2p.SimState := naivep2p.runNodeStep sim2 st0b g10

def st0d : naivep2p.SimState := naivep2p.runNodeStep sim2 st0c g01b

def st0e : naivep2p.SimState := naivep2p.killNode st0d 0

def st0f : naivep2p.SimState := naivep2p.killNode st0e 1

/-- States of a ttl = 5 round of `sim2` in which both idle timers
fire before the seed dispatch is ever delivered (realised by the Go
code when the propagation delay exceeds the 10-second window). -/
def st4a : naivep2p.SimState := naivep2p.initState sim2 0 5

def st4b : naivep2p.SimState := naivep2p.killNode st4a 1

def st4c : naivep2p.SimState := naivep2p.killNode st4b 0

/-- States of a ttl = 1 round of `sim2p`: the first copy of the seed
is delivered and exhausts node 1, the second copy can never
rendezvous, the start node idles out. -/
def st2pa : naivep2p.SimState := naivep2p.initState sim2p 0 1

def st2pb : naivep2p.SimState := naivep2p.runNodeStep sim2p st2pa f01

def st2pc : naivep2p.SimState := naivep2p.killNode st2pb 0

/-- A node goroutine at its deadline with a sender still blocked on
its channel: traffic is present, yet the timer case is enabled. -/
def tnodeBusy : naivep2p.TNodeState :=
  ⟨10, 10, [], [⟨"fresh", 5⟩], true⟩

namespace naivep2p

/-! ### Basic facts about the round state -/

/-- Delivery appends exactly one report entry — the receiver's dedup
verdict plays no role, the report is sent right after the channel
handoff. -/
theorem runNodeStep_log {sim : Simulator} {s : SimState} {f : Flight}
    {ns : NodeState} (h : s.nodes.get? f.dst = some ns) :
    (runNodeStep sim s f).log =
      s.log ++ [{ src := f.src, dst := f.dst, hop := f.hop }] := by
  unfold runNodeStep
  rw [h]
  by_cases hc : f.msg.content ∈ ns.cache
  · simp [hc]
  · by_cases ht : f.msg.ttl - 1 = 0 <;> simp [hc, ht]

/-- Every flight present after a delivery step either was already in
flight, or was just spawned by the receiver's fan-out, in which case
it carries the same content, the decremented (nonzero) TTL, and the
incremented ghost hop. -/
theorem runNodeStep_flights {sim : Simulator} {s : SimState} {f : Flight}
    {g : Flight} (hg : g ∈ (runNodeStep sim s f).flights) :
    g ∈ s.flights ∨
      (g.msg.content = f.msg.content ∧ g.msg.ttl = f.msg.ttl - 1 ∧
        g.hop = f.hop + 1 ∧ f.msg.ttl - 1 ≠ 0) := by
  unfold runNodeStep at hg
  cases h : s.nodes.get? f.dst with
  | none => rw [h] at hg; exact Or.inl hg
  | some ns =>
      rw [h] at hg
      by_cases hc : f.msg.content ∈ ns.cache
      · simp only [if_pos hc] at hg
        exact Or.inl (List.mem_of_mem_erase hg)
      · simp only [if_neg hc] at hg
        by_cases ht : f.msg.ttl - 1 = 0
        · simp only [if_pos ht] at hg
          exact Or.inl (List.mem_of_mem_erase hg)
        · simp only [if_neg ht] at hg
          rcases List.mem_append.mp hg with hg1 | hg2
          · exact Or.inl (List.mem_of_mem_erase hg1)
          · rcases List.mem_map.mp hg2 with ⟨p, _, hp⟩
            subst hp
            exact Or.inr ⟨rfl, rfl, rfl, ht⟩

/-- A delivery whose message's decremented TTL exhausts (or which is
dropped as a duplicate) consumes the dispatch and spawns nothing. -/
theorem runNodeStep_flights_exhaust {sim : Simulator} {s : SimState} {f : Flight}
    {ns : NodeState} (hns : s.nodes.get? f.dst = some ns)
    (ht : f.msg.ttl - 1 = 0) :
    (runNodeStep sim s f).flights = s.flights.erase f := by
  unfold runNodeStep
  rw [hns]
  by_cases hdup : f.msg.content ∈ ns.cache
  · simp [hdup]
  · simp [hdup, ht]

theorem aliveAt_iff {s : SimState} {i : Nat} :
    aliveAt s i = true ↔ ∃ ns, s.nodes.get? i = some ns ∧ ns.alive = true := by
  unfold aliveAt
  cases h : s.nodes.get? i <;> simp

theorem cacheOf_eq {s : SimState} {i : Nat} {ns : NodeState}
    (h : s.nodes.get? i = some ns) : cacheOf s i = ns.cache := by
  unfold cacheOf
  rw [h]

theorem killNode_flights (s : SimState) (i : Nat) :
    (killNode s i).flights = s.flights := by
  unfold killNode
  cases h : s.nodes.get? i <;> rfl

theorem killNode_log (s : SimState) (i : Nat) :
    (killNode s i).log = s.log := by
  unfold killNode
  cases h : s.nodes.get? i <;> rfl

theorem cacheOf_killNode (s : SimState) (i j : Nat) :
    cacheOf (killNode s i) j = cacheOf s j := by
  unfold killNode
  cases h : s.nodes.get? i with
  | none => rfl
  | some ns =>
      rcases eq_or_ne j i with rfl | hne
      · have hlt : j < s.nodes.length := (List.get?_eq_some.mp h).1
        rw [cacheOf_eq h]
        unfold cacheOf
        simp only
        rw [List.get?_set_eq_of_lt _ hlt]
      · unfold cacheOf
        simp only
        rw [List.get?_set_ne _ _ (Ne.symm hne)]

theorem isProcessing_timeout (i : Nat) (c : String) (s : SimState) (j : Nat) :
    isProcessing i c (s, Label.timeout j) = false := rfl

theorem flightInv_initState {sim : Simulator} {start : Nat} {t : Int}
    (ht : 1 ≤ t) : FlightInv t (initState sim start t) := by
  intro f hf
  rcases List.mem_map.mp hf with ⟨p, _, hp⟩
  subst hp
  constructor
  · exact ht
  · simp

theorem flightInv_step {sim : Simulator} {s s1 : SimState} {l : Label} {t : Int}
    (hstep : Step sim s l s1) (hinv : FlightInv t s) : FlightInv t s1 := by
  cases hstep with
  | timeout i _ =>
      intro f hf
      rw [killNode_flights] at hf
      exact hinv f hf
  | deliver f hmem _ =>
      intro g hg
      rcases runNodeStep_flights hg with hg1 | ⟨_, httl, hhop, hne⟩
      · exact hinv g hg1
      · rcases hinv f hmem with ⟨hpos, heq⟩
        constructor
        · rw [httl]
          rcases lt_or_eq_of_le hpos with hlt | heq1
          · omega
          · exact absurd (by omega : f.msg.ttl - 1 = 0) hne
        · rw [httl, hhop]
          push_cast
          omega

theorem logHopInv_step {sim : Simulator} {s s1 : SimState} {l : Label} {t : Int}
    (hstep : Step sim s l s1) (hflight : FlightInv t s) (hlog : LogHopInv t s) :
    LogHopInv t s1 := by
  cases hstep with
  | timeout i _ =>
      intro e he
      rw [killNode_log] at he
      exact hlog e he
  | deliver f hmem halive =>
      intro e he
      rcases aliveAt_iff.mp halive with ⟨ns, hns, _⟩
      rw [runNodeStep_log hns] at he
      rcases List.mem_append.mp he with he1 | he2
      · exact hlog e he1
      · rcases List.mem_singleton.mp he2 with rfl
        rcases hflight f hmem with ⟨hpos, heq⟩
        simp only
        omega

theorem nonposInv_step {sim : Simulator} {s s1 : SimState} {l : Label}
    (hstep : Step sim s l s1) (hinv : NonposInv s) : NonposInv s1 := by
  cases hstep with
  | timeout i _ =>
      intro f hf
      rw [killNode_flights] at hf
      exact hinv f hf
  | deliver f hmem _ =>
      intro g hg
      rcases runNodeStep_flights hg with hg1 | ⟨_, httl, _, _⟩
      · exact hinv g hg1
      · have := hinv f hmem
        omega

theorem nonposInv_trace {sim : Simulator} {s s2 : SimState}
    {tr : List (SimState × Label)} (h : Trace sim s tr s2)
    (hinv : NonposInv s) : NonposInv s2 := by
  induction h with
  | nil s => exact hinv
  | @cons s s1 s2 l tr hstep htr ih => exact ih (nonposInv_step hstep hinv)

theorem terminal_iff_aliveCount {s : SimState} :
    Terminal s ↔ aliveCount s = 0 := by
  unfold Terminal aliveCount
  rw [List.countP_eq_zero]
  constructor
  · intro h ns hns
    simp [h ns hns]
  · intro h ns hns
    have := h ns hns
    simpa using this

theorem countP_set_aux {α : Type} (p : α → Bool) :
    ∀ (l : List α) (i : Nat) (a b : α), l.get? i = some b →
      (l.set i a).countP p + (if p b then 1 else 0) =
        l.countP p + (if p a then 1 else 0) := by
  intro l
  induction l with
  | nil => intro i a b h; simp at h
  | cons x xs ih =>
      intro i a b h
      cases i with
      | zero =>
          have hb : b = x := by simpa using h.symm
          subst hb
          simp only [List.set, List.countP_cons]
          omega
      | succ j =>
          have hj : xs.get? j = some b := by simpa using h
          simp only [List.set, List.countP_cons]
          have := ih j a b hj
          omega

theorem aliveCount_killNode {s : SimState} {i : Nat} {ns : NodeState}
    (h : s.nodes.get? i = some ns) (ha : ns.alive = true) :
    aliveCount (killNode s i) + 1 = aliveCount s := by
  unfold killNode
  rw [h]
  unfold aliveCount
  simp only
  have := countP_set_aux (fun ns => ns.alive) s.nodes i
    { ns with alive := false } ns h
  simpa [ha] using this

theorem perm_append_singleton {α : Type} (l1 l2 : List α) (p : α) :
    List.Perm (l1 ++ (l2 ++ [p])) ((p :: l1) ++ l2) := by
  have h1 : l1 ++ (l2 ++ [p]) = (l1 ++ l2) ++ [p] := by rw [List.append_assoc]
  rw [h1]
  have h2 : List.Perm ((l1 ++ l2) ++ [p]) ([p] ++ (l1 ++ l2)) :=
    List.perm_append_comm
  simpa using h2

theorem oneHopInv_initState (sim : Simulator) (start : Nat) :
    OneHopInv ((sim.peers start).map (fun p => (start, p)))
      (initState sim start 1) := by
  refine ⟨?_, ?_, ?_⟩
  · intro f hf
    rcases List.mem_map.mp hf with ⟨p, _, hp⟩
    subst hp
    exact ⟨rfl, rfl⟩
  · intro e he
    simp [initState] at he
  · have heq : (initState sim start 1).flights.map pairOfFlight ++
        (initState sim start 1).log.map pairOfEntry =
        (sim.peers start).map (fun p => (start, p)) := by
      simp [initState, propagateMessage, pairOfFlight, List.map_map, Function.comp]
    rw [heq]

theorem oneHopInv_step {sim : Simulator} {s s1 : SimState} {l : Label}
    {seed : List (Nat × Nat)} (hstep : Step sim s l s1)
    (hinv : OneHopInv seed s) : OneHopInv seed s1 := by
  rcases hinv with ⟨hfl, hlog, hperm⟩
  cases hstep with
  | timeout i _ =>
      refine ⟨?_, ?_, ?_⟩
      · intro f hf; rw [killNode_flights] at hf; exact hfl f hf
      · intro e he; rw [killNode_log] at he; exact hlog e he
      · rw [killNode_flights, killNode_log]; exact hperm
  | deliver f hmem halive =>
      rcases aliveAt_iff.mp halive with ⟨ns, hns, _⟩
      have ht : f.msg.ttl - 1 = 0 := by
        have := (hfl f hmem).1
        omega
      have hfl1 := @runNodeStep_flights_exhaust sim s f ns hns ht
      have hlog1 := @runNodeStep_log sim s f ns hns
      refine ⟨?_, ?_, ?_⟩
      · intro g hg
        rw [hfl1] at hg
        exact hfl g (List.mem_of_mem_erase hg)
      · intro e he
        rw [hlog1] at he
        rcases List.mem_append.mp he with he1 | he2
        · exact hlog e he1
        · rcases List.mem_singleton.mp he2 with rfl
          exact (hfl f hmem).2
      · rw [hfl1, hlog1]
        have hstage : List.Perm
            ((s.flights.erase f).map pairOfFlight ++
              (s.log.map pairOfEntry ++ [pairOfFlight f]))
            ((pairOfFlight f :: (s.flights.erase f).map pairOfFlight) ++
              s.log.map pairOfEntry) :=
          perm_append_singleton _ _ _
        have hcons : List.Perm s.flights (f :: s.flights.erase f) :=
          List.perm_cons_erase hmem
        have hmap : List.Perm (s.flights.map pairOfFlight)
            (pairOfFlight f :: (s.flights.erase f).map pairOfFlight) := by
          simpa using hcons.map pairOfFlight
        have hback : List.Perm
            ((pairOfFlight f :: (s.flights.erase f).map pairOfFlight) ++
              s.log.map pairOfEntry)
            (s.flights.map pairOfFlight ++ s.log.map pairOfEntry) :=
          (hmap.symm).append_right _
        have hentry : (s.log ++
            [({ src := f.src, dst := f.dst, hop := f.hop } : LogEntry)]).map
            pairOfEntry = s.log.map pairOfEntry ++ [pairOfFlight f] := by
          simp [pairOfEntry, pairOfFlight]
        rw [hentry]
        exact (hstage.trans hback).trans hperm

theorem oneHopInv_trace {sim : Simulator} {s s2 : SimState}
    {tr : List (SimState × Label)} {seed : List (Nat × Nat)}
    (h : Trace sim s tr s2) (hinv : OneHopInv seed s) : OneHopInv seed s2 := by
  induction h with
  | nil s => exact hinv
  | @cons s s1 s2 l tr hstep htr ih => exact ih (oneHopInv_step hstep hinv)

/-- Dedup caches only ever grow along a delivery. -/

theorem cacheOf_mono_runNodeStep {sim : Simulator} {s : SimState} {f : Flight}
    {i : Nat} {c : String} (hc : c ∈ cacheOf s i) :
    c ∈ cacheOf (runNodeStep sim s f) i := by
  unfold runNodeStep
  cases h : s.nodes.get? f.dst with
  | none => exact hc
  | some ns =>
      by_cases hdup : f.msg.content ∈ ns.cache
      · simpa [hdup] using hc
      · have hlt : f.dst < s.nodes.length := (List.get?_eq_some.mp h).1
        rcases eq_or_ne i f.dst with rfl | hne
        · rw [cacheOf_eq h] at hc
          by_cases ht : f.msg.ttl - 1 = 0 <;>
            · simp only [hdup, ht, if_neg, if_pos, ite_false, ite_true]
              unfold cacheOf
              simp only
              rw [List.get?_set_eq_of_lt _ hlt]
              exact List.mem_cons_of_mem _ hc
        · by_cases ht : f.msg.ttl - 1 = 0 <;>
            · simp only [hdup, ht, if_neg, if_pos, ite_false, ite_true]
              unfold cacheOf
              simp only
              rw [List.get?_set_ne _ _ (Ne.symm hne)]
              exact hc

/-- Dedup caches only ever grow along any step of a round. -/

theorem cacheOf_mono_step {sim : Simulator} {s s1 : SimState} {l : Label}
    (hstep : Step sim s l s1) {i : Nat} {c : String} (hc : c ∈ cacheOf s i) :
    c ∈ cacheOf s1 i := by
  cases hstep with
  | deliver f _ _ => exact cacheOf_mono_runNodeStep hc
  | timeout j _ => rw [cacheOf_killNode]; exact hc

/-- Processing an uncached message records its content in the
receiver's cache, whether or not the decremented TTL exhausts. -/

theorem cacheOf_runNodeStep_self {sim : Simulator} {s : SimState} {f : Flight}
    {ns : NodeState} (h : s.nodes.get? f.dst = some ns)
    (hmiss : f.msg.content ∉ ns.cache) :
    f.msg.content ∈ cacheOf (runNodeStep sim s f) f.dst := by
  unfold runNodeStep
  rw [h]
  have hlt : f.dst < s.nodes.length := (List.get?_eq_some.mp h).1
  by_cases ht : f.msg.ttl - 1 = 0 <;>
    · simp only [hmiss, ht, if_neg, if_pos, ite_false, ite_true]
      unfold cacheOf
      simp only
      rw [List.get?_set_eq_of_lt _ hlt]
      exact List.mem_cons_self _ _

/-- Once `c` is cached at node `i`, no later step of the round
processes `c` at `i` again. -/
theorem countP_isProcessing_zero {sim : Simulator} {s s2 : SimState}
    {tr : List (SimState × Label)} (h : Trace sim s tr s2)
    {i : Nat} {c : String} (hc : c ∈ cacheOf s i) :
    tr.countP (isProcessing i c) = 0 := by
  induction h with
  | nil s => rfl
  | @cons s s1 s2 l tr hstep htr ih =>
      rw [List.countP_cons]
      have hhead : isProcessing i c (s, l) = false := by
        cases l with
        | deliver f =>
            simp only [isProcessing, decide_eq_false_iff_not]
            intro hx
            exact hx.2.2 hc
        | timeout j => rfl
      rw [hhead]
      simpa using ih (cacheOf_mono_step hstep hc)

/-- In any execution of a round, content `c` is processed (hence
forwarded) at node `i` at most once. -/

theorem countP_isProcessing_le_one {sim : Simulator} {s s2 : SimState}
    {tr : List (SimState × Label)} (h : Trace sim s tr s2) (i : Nat) (c : String) :
    tr.countP (isProcessing i c) ≤ 1 := by
  induction h with
  | nil s => exact Nat.zero_le 1
  | @cons s s1 s2 l tr hstep htr ih =>
      rw [List.countP_cons]
      by_cases hhead : isProcessing i c (s, l) = true
      · rw [hhead]
        cases l with
        | timeout j => exact absurd hhead (by simp [isProcessing])
        | deliver f =>
            have hx : f.dst = i ∧ f.msg.content = c ∧ c ∉ cacheOf s i := by
              simpa [isProcessing] using hhead
            cases hstep with
            | deliver f hmem halive =>
                rcases aliveAt_iff.mp halive with ⟨ns, hns, _⟩
                have hmiss : f.msg.content ∉ ns.cache := by
                  rw [← cacheOf_eq hns, hx.1]
                  exact fun hmem2 => hx.2.2 (hx.2.1 ▸ hmem2)
                have hcached : c ∈ cacheOf (runNodeStep sim s f) i := by
                  rw [← hx.1, ← hx.2.1]
                  exact cacheOf_runNodeStep_self hns hmiss
                rw [countP_isProcessing_zero htr hcached]
                simp
      · rw [eq_false_of_ne_true hhead]
        simpa using ih

/-- Both invariants hold in every state a round seeded with `t ≥ 1`
can reach. -/
theorem flightInv_trace {sim : Simulator} {s s2 : SimState}
    {tr : List (SimState × Label)} {t : Int} (h : Trace sim s tr s2)
    (hflight : FlightInv t s) (hlog : LogHopInv t s) :
    FlightInv t s2 ∧ LogHopInv t s2 := by
  induction h with
  | nil s => exact ⟨hflight, hlog⟩
  | @cons s s1 s2 l tr hstep htr ih =>
      exact ih (flightInv_step hstep hflight) (logHopInv_step hstep hflight hlog)

/-- In a round whose in-flight TTLs are all non-positive, no step
ever terminates a node by hop-budget exhaustion. -/
theorem countP_isHopExhaustion_zero {sim : Simulator} {s s2 : SimState}
    {tr : List (SimState × Label)} (h : Trace sim s tr s2)
    (hinv : NonposInv s) : tr.countP isHopExhaustion = 0 := by
  induction h with
  | nil s => rfl
  | @cons s s1 s2 l tr hstep htr ih =>
      rw [List.countP_cons]
      have hhead : isHopExhaustion (s, l) = false := by
        cases l with
        | timeout j => rfl
        | deliver f =>
            simp only [isHopExhaustion, decide_eq_false_iff_not]
            rintro ⟨-, ht⟩
            cases hstep with
            | deliver f hmem _ =>
                have := hinv f hmem
                omega
      rw [hhead]
      simpa using ih (nonposInv_step hstep hinv)

/-- A terminal state admits no further step: every transition needs a
goroutine that is still in its receive loop. -/

theorem terminal_no_step {sim : Simulator} {s s1 : SimState} {l : Label}
    (hterm : Terminal s) (hstep : Step sim s l s1) : False := by
  have halive : ∃ i, aliveAt s i = true := by
    cases hstep with
    | deliver f _ halive => exact ⟨f.dst, halive⟩
    | timeout i halive => exact ⟨i, halive⟩
  rcases halive with ⟨i, hi⟩
  rcases aliveAt_iff.mp hi with ⟨ns, hns, hal⟩
  have : ns ∈ s.nodes := List.get?_mem hns
  rw [hterm ns this] at hal
  exact Bool.false_ne_true hal

/-- From any state, letting every remaining idle timer fire reaches a
terminal state without delivering anything further: the report log
and the blocked dispatches stay as they are. -/
theorem drainTimeouts (sim : Simulator) :
    ∀ (k : Nat) (s : SimState), aliveCount s ≤ k →
      ∃ tr s1, Trace sim s tr s1 ∧ Terminal s1 ∧ s1.log = s.log ∧
        s1.flights = s.flights := by
  intro k
  induction k with
  | zero =>
      intro s hs
      refine ⟨[], s, Trace.nil s, ?_, rfl, rfl⟩
      exact terminal_iff_aliveCount.mpr (Nat.le_zero.mp hs)
  | succ k ih =>
      intro s hs
      by_cases hterm : Terminal s
      · exact ⟨[], s, Trace.nil s, hterm, rfl, rfl⟩
      · have hpos : aliveCount s ≠ 0 := fun h0 => hterm (terminal_iff_aliveCount.mpr h0)
        have : ∃ ns ∈ s.nodes, ns.alive = true := by
          by_contra hno
          push_neg at hno
          apply hpos
          rw [← terminal_iff_aliveCount]
          intro ns hns
          have := hno ns hns
          simpa using this
        rcases this with ⟨ns, hmem, hal⟩
        rcases List.mem_iff_get?.mp hmem with ⟨i, hi⟩
        have halive : aliveAt s i = true := aliveAt_iff.mpr ⟨ns, hi, hal⟩
        have hstep : Step sim s (Label.timeout i) (killNode s i) :=
          Step.timeout s i halive
        have hcount : aliveCount (killNode s i) ≤ k := by
          have := aliveCount_killNode hi hal
          omega
        rcases ih (killNode s i) hcount with ⟨tr, s1, htr, hterm1, hlog, hfl⟩
        exact ⟨(s, Label.timeout i) :: tr, s1, Trace.cons hstep htr, hterm1,
          hlog.trans (killNode_log s i), hfl.trans (killNode_flights s i)⟩

end naivep2p

namespace stats

/-! ### Hit-map lemmas -/

theorem hitsOf_bump (m : List (String × Nat)) (k id : String) :
    hitsOf (bump m k) id = hitsOf m id + (if k = id then 1 else 0) := by
  induction m with
  | nil => simp [bump, hitsOf]
  | cons a rest ih =>
      obtain ⟨ak, av⟩ := a
      by_cases hak : ak = k
      · subst hak
        by_cases hid : ak = id
        · subst hid
          simp [bump, hitsOf]
        · simp [bump, hitsOf, hid]
      · by_cases hid : ak = id
        · subst hid
          have hk : ¬ k = ak := fun h => hak h.symm
          simp [bump, hitsOf, hak, hk]
        · simp [bump, hitsOf, hak, hid, ih]

theorem keys_bump (m : List (String × Nat)) (k : String) :
    keys (bump m k) = if k ∈ keys m then keys m else keys m ++ [k] := by
  induction m with
  | nil => simp [bump, keys]
  | cons a rest ih =>
      obtain ⟨ak, av⟩ := a
      by_cases hak : ak = k
      · subst hak
        simp [bump, keys]
      · have hk : ¬ k = ak := fun h => hak h.symm
        have hstep : keys (bump ((ak, av) :: rest) k) = ak :: keys (bump rest k) := by
          simp [bump, keys, hak]
        rw [hstep, ih]
        by_cases hmem : k ∈ keys rest
        · have h2 : k ∈ ak :: keys rest := List.mem_cons_of_mem ak hmem
          simp only [keys, List.map_cons] at hmem h2 ⊢
          rw [if_pos h2, if_pos hmem]
        · have h2 : k ∉ ak :: keys rest := by
            intro hx
            rcases List.mem_cons.mp hx with h | h
            exacts [hk h, hmem h]
          simp only [keys, List.map_cons] at hmem h2 ⊢
          rw [if_neg h2, if_neg hmem]
          rfl

theorem keys_bump_nodup {m : List (String × Nat)} (h : (keys m).Nodup)
    (k : String) : (keys (bump m k)).Nodup := by
  rw [keys_bump]
  by_cases hmem : k ∈ keys m
  · simpa [hmem] using h
  · simp only [hmem, if_neg, ite_false]
    rw [List.nodup_append]
    exact ⟨h, List.nodup_singleton k, by simpa using hmem⟩

theorem keys_bump_toFinset (m : List (String × Nat)) (k : String) :
    (keys (bump m k)).toFinset = insert k (keys m).toFinset := by
  rw [keys_bump]
  by_cases hmem : k ∈ keys m
  · simp only [hmem, if_pos, ite_true]
    have : k ∈ (keys m).toFinset := List.mem_toFinset.mpr hmem
    rw [Finset.insert_eq_self.mpr this]
  · simp [hmem]
    exact Finset.union_comm _ _

/-- Full behaviour of the `analyzeNodeHits` loop: with all receiver
indices valid, it succeeds; each identifier's count grows by the
number of its occurrences; the key set grows by the resolved
identifiers and stays duplicate-free. -/
theorem nodeHitsLoop_spec (g : List String) :
    ∀ (js : List Nat) (m0 : List (String × Nat)),
      (∀ j ∈ js, j < g.length) → (keys m0).Nodup →
      ∃ m, nodeHitsLoop g js m0 = Except.ok m ∧
        (∀ id, hitsOf m id =
          hitsOf m0 id + js.countP (fun j => decide (NodeIDByIdx g j = some id))) ∧
        (keys m).Nodup ∧
        (keys m).toFinset = (keys m0).toFinset ∪ (js.filterMap (NodeIDByIdx g)).toFinset := by
  intro js
  induction js with
  | nil =>
      intro m0 _ hnodup
      exact ⟨m0, rfl, fun id => by simp, hnodup, by simp⟩
  | cons j rest ih =>
      intro m0 hvalid hnodup
      have hj : j < g.length := hvalid j (List.mem_cons_self j rest)
      have hid : ∃ id0, NodeIDByIdx g j = some id0 := by
        unfold NodeIDByIdx
        exact ⟨g.get ⟨j, hj⟩, List.get?_eq_get hj⟩
      rcases hid with ⟨id0, hid0⟩
      have hrest : ∀ x ∈ rest, x < g.length :=
        fun x hx => hvalid x (List.mem_cons_of_mem j hx)
      rcases ih (bump m0 id0) hrest (keys_bump_nodup hnodup id0) with
        ⟨m, hok, hcount, hnodup1, hkeys⟩
      refine ⟨m, ?_, ?_, hnodup1, ?_⟩
      · unfold nodeHitsLoop
        rw [hid0]
        exact hok
      · intro id
        rw [hcount id, hitsOf_bump, List.countP_cons]
        have : (decide (NodeIDByIdx g j = some id)) = (if id0 = id then true else false) := by
          rw [hid0]
          by_cases h : id0 = id <;> simp [h]
        rw [this]
        by_cases h : id0 = id <;> simp [h] <;> omega
      · rw [hkeys, keys_bump_toFinset]
        have hfm : (j :: rest).filterMap (NodeIDByIdx g) =
            id0 :: rest.filterMap (NodeIDByIdx g) := by
          simp [List.filterMap_cons, hid0]
        rw [hfm]
        simp only [List.toFinset_cons]
        rw [Finset.insert_union, Finset.union_insert]

end stats

/-! ### Concrete executions -/

/-- The complete ttl = 1 round of `sim2`: the seed is delivered to
node 1 (which exhausts its hop budget), then node 0 idles out. -/
theorem trace2 : naivep2p.Trace sim2 st2a
    [(st2a, naivep2p.Label.deliver f01), (st2b, naivep2p.Label.timeout 0)] st2c :=
  naivep2p.Trace.cons (naivep2p.Step.deliver st2a f01 (by decide) (by decide))
    (naivep2p.Trace.cons (naivep2p.Step.timeout st2b 0 (by decide))
      (naivep2p.Trace.nil st2c))

/-- A complete ttl = 1 round of `sim2p`: the first copy of the seed
is delivered, node 1 terminates, node 0 idles out; the second copy
stays in flight forever. -/
theorem trace2p : naivep2p.Trace sim2p st2pa
    [(st2pa, naivep2p.Label.deliver f01), (st2pb, naivep2p.Label.timeout 0)] st2pc :=
  naivep2p.Trace.cons (naivep2p.Step.deliver st2pa f01 (by decide) (by decide))
    (naivep2p.Trace.cons (naivep2p.Step.timeout st2pb 0 (by decide))
      (naivep2p.Trace.nil st2pc))

/-- A complete ttl = 0 round of `sim2`: three deliveries (the third
dropped by dedup), then both idle timers fire. -/
theorem trace0 : naivep2p.Trace sim2 st0a
    [(st0a, naivep2p.Label.deliver g01), (st0b, naivep2p.Label.deliver g10),
      (st0c, naivep2p.Label.deliver g01b), (st0d, naivep2p.Label.timeout 0),
      (st0e, naivep2p.Label.timeout 1)] st0f :=
  naivep2p.Trace.cons (naivep2p.Step.deliver st0a g01 (by decide) (by decide))
    (naivep2p.Trace.cons (naivep2p.Step.deliver st0b g10 (by decide) (by decide))
      (naivep2p.Trace.cons (naivep2p.Step.deliver st0c g01b (by decide) (by decide))
        (naivep2p.Trace.cons (naivep2p.Step.timeout st0d 0 (by decide))
          (naivep2p.Trace.cons (naivep2p.Step.timeout st0e 1 (by decide))
            (naivep2p.Trace.nil st0f)))))

/-- A complete ttl = 5 round of `sim2` in which both idle timers fire
before any delivery. -/
theorem trace4 : naivep2p.Trace sim2 st4a
    [(st4a, naivep2p.Label.timeout 1), (st4b, naivep2p.Label.timeout 0)] st4c :=
  naivep2p.Trace.cons (naivep2p.Step.timeout st4a 1 (by decide))
    (naivep2p.Trace.cons (naivep2p.Step.timeout st4b 0 (by decide))
      (naivep2p.Trace.nil st4c))

/-! ### Claim theorems -/

/-- C1 (Dedup idempotence): in every propagation round, for every
message content key, each node processes — and hence forwards — that
content at most once, no matter how many copies it receives, so no
duplicate (from, to) pairs arise from re-processing the same content
at the same node; and the seed injection leaves every dedup cache
(the start node's included) empty, which is why the start node may
re-forward when the message loops back to it. -/
theorem dedup_idempotence (sim : naivep2p.Simulator) (start : Nat) (ttl : Int)
    (i : Nat) (c : String) (tr : List (naivep2p.SimState × naivep2p.Label))
    (s2 : naivep2p.SimState)
    (h : naivep2p.Trace sim (naivep2p.initState sim start ttl) tr s2) :
    (∀ ns ∈ (naivep2p.initState sim start ttl).nodes, ns.cache = []) ∧
    tr.countP (naivep2p.isProcessing i c) ≤ 1 := by
  constructor
  · intro ns hns
    have := List.eq_of_mem_replicate hns
    rw [this]
  · exact naivep2p.countP_isProcessing_le_one h i c

/-- Witness for C1 on the complete ttl = 1 round of `sim2`. -/
theorem dedup_idempotence_witness :
    List.countP (naivep2p.isProcessing 1 "dummy")
      [(st2a, naivep2p.Label.deliver f01), (st2b, naivep2p.Label.timeout 0)] ≤ 1 :=
  (dedup_idempotence sim2 0 1 1 "dummy" _ st2c trace2).2

/-- C2 (TTL bound): in a round injected with initial ttl at least 1,
every report entry of every reachable state has forwarding depth at
most the initial ttl, and every message still in flight has a
positive remaining budget — the hop count of any forwarding chain
never exceeds the initial ttl. -/
theorem ttl_bound (sim : naivep2p.Simulator) (start : Nat) (ttl : Int)
    (tr : List (naivep2p.SimState × naivep2p.Label)) (s2 : naivep2p.SimState)
    (h1 : 1 ≤ ttl)
    (h : naivep2p.Trace sim (naivep2p.initState sim start ttl) tr s2) :
    (∀ e ∈ s2.log, (e.hop : Int) ≤ ttl) ∧
    (∀ f ∈ s2.flights, 1 ≤ f.msg.ttl) := by
  have hinit : naivep2p.FlightInv ttl (naivep2p.initState sim start ttl) :=
    naivep2p.flightInv_initState h1
  have hlog0 : naivep2p.LogHopInv ttl (naivep2p.initState sim start ttl) := by
    intro e he
    simp [naivep2p.initState] at he
  have hres := naivep2p.flightInv_trace h hinit hlog0
  exact ⟨hres.2, fun f hf => (hres.1 f hf).1⟩

/-- Witness for C2 on the complete ttl = 1 round of `sim2`, at its
single report entry. -/
theorem ttl_bound_witness :
    (1 : Int) ≤ 1 ∧ (((⟨0, 1, 1⟩ : naivep2p.LogEntry).hop : Int) ≤ 1) :=
  ⟨le_refl 1,
    (ttl_bound sim2 0 1 _ st2c (le_refl 1) trace2).1 ⟨0, 1, 1⟩ (by decide)⟩

/-- C3 (Fanout policy): the fan-out width `N` is accepted at
construction and stored in `peersToSendTo`, but every fan-out —
including the seed fan-out of `SendMessage` — targets the whole
precalculated peer list of the current node, and the delivery step
function and initial state are unchanged by any modification of
`peersToSendTo`. -/
theorem fanout_ignores_width :
    (∀ (nodeCount : Nat) (links : List (Nat × Nat)) (N delay : Nat),
      (naivep2p.NewSimulator nodeCount links N delay).peersToSendTo = N) ∧
    (∀ (sim : naivep2p.Simulator) (src : Nat) (msg : naivep2p.Message) (hop : Nat),
      (naivep2p.propagateMessage sim src msg hop).map naivep2p.Flight.dst =
        sim.peers src) ∧
    (∀ (sim : naivep2p.Simulator) (N2 : Nat) (s : naivep2p.SimState)
      (f : naivep2p.Flight),
      naivep2p.runNodeStep { sim with peersToSendTo := N2 } s f =
        naivep2p.runNodeStep sim s f) ∧
    (∀ (sim : naivep2p.Simulator) (N2 : Nat) (start : Nat) (ttl : Int),
      naivep2p.initState { sim with peersToSendTo := N2 } start ttl =
        naivep2p.initState sim start ttl) := by
  refine ⟨fun _ _ _ _ => rfl, ?_, fun _ _ _ _ => rfl, fun _ _ _ _ => rfl⟩
  intro sim src msg hop
  have hcomp : (naivep2p.Flight.dst ∘ fun p =>
      ({ src := src, dst := p, msg := msg, hop := hop } : naivep2p.Flight)) =
      fun p => p := rfl
  simp [naivep2p.propagateMessage, List.map_map, hcomp]

/-- C4 counterexample: a complete naivep2p round on `sim2` in which
the start node has a peer (`peers 0 = [1]`) yet zero hop events are
observed — realised by the Go code whenever the propagation delay
exceeds the idle window, so both node timers fire before the seed
delivery — and `SendMessage` returns the empty log through its
normal, check-free epilogue instead of aborting. -/
theorem zero_events_round_returns_empty_log :
    sim2.peers 0 = [1] ∧
    naivep2p.SendMessageReturns sim2 0 5 [] ∧
    naivep2p.sendMessageEpilogue [] = Except.ok [] := by
  refine ⟨by decide, ?_, rfl⟩
  exact ⟨[(st4a, naivep2p.Label.timeout 1), (st4b, naivep2p.Label.timeout 0)],
    st4c, trace4, by decide, by decide⟩

/-- C4 (amended): only the whisperv6 adapter's `SendMessage` aborts
loudly when zero propagation events are observed; the naivep2p
engine's `SendMessage` performs no zero-event check and returns the
assembled — possibly empty — log unconditionally. -/
theorem zero_events_abort_only_in_whisperv6 :
    (∀ entries, naivep2p.sendMessageEpilogue entries = Except.ok entries) ∧
    (∀ events, whisperv6.collectLoop events = [] →
      whisperv6.sendMessageEpilogue events =
        Except.error "did not get any events, something wrong with simulator") ∧
    (∀ events, whisperv6.collectLoop events ≠ [] →
      whisperv6.sendMessageEpilogue events =
        Except.ok (whisperv6.collectLoop events)) := by
  refine ⟨fun _ => rfl, ?_, ?_⟩
  · intro events hempty
    unfold whisperv6.sendMessageEpilogue
    rw [hempty]
    rfl
  · intro events hne
    unfold whisperv6.sendMessageEpilogue
    rw [if_neg]
    simpa using hne

/-- Witness for C4 (amended) at the empty event stream and at the
empty naivep2p report list. -/
theorem zero_events_abort_only_in_whisperv6_witness :
    naivep2p.sendMessageEpilogue [] = Except.ok [] ∧
    whisperv6.sendMessageEpilogue [] =
      Except.error "did not get any events, something wrong with simulator" :=
  ⟨zero_events_abort_only_in_whisperv6.1 [],
    zero_events_abort_only_in_whisperv6.2.1 [] rfl⟩

/-- C5 counterexample: the engine does not fail fatally on invalid
configuration — a round dispatched with non-positive ttl = 0
proceeds to propagate (three hop events are collected before the
dedup caches stop it), and a round dispatched with out-of-range
start index 5 completes normally with an empty log; both return
through the normal epilogue. -/
theorem invalid_config_round_proceeds :
    naivep2p.SendMessageReturns sim2 0 0 [⟨0, 1, 1⟩, ⟨1, 0, 2⟩, ⟨0, 1, 3⟩] ∧
    naivep2p.SendMessageReturns sim2 5 7 [] := by
  constructor
  · exact ⟨[(st0a, naivep2p.Label.deliver g01), (st0b, naivep2p.Label.deliver g10),
      (st0c, naivep2p.Label.deliver g01b), (st0d, naivep2p.Label.timeout 0),
      (st0e, naivep2p.Label.timeout 1)], st0f, trace0, by decide, by decide⟩
  · rcases naivep2p.drainTimeouts sim2
      (naivep2p.aliveCount (naivep2p.initState sim2 5 7))
      (naivep2p.initState sim2 5 7) (le_refl _) with ⟨tr, s1, htr, hterm, hlog, _⟩
    exact ⟨tr, s1, htr, hterm, hlog⟩

/-- C5 (amended): the engine performs no configuration validation:
the seed is dispatched for every start index and every ttl (one
dispatch per peer-table entry of the start node, so an unknown start
index yields an empty fan-out), a start node without peers leads to
a normally completed round with an empty log rather than a fatal
error, and the round epilogue has no failure path at all. -/
theorem no_config_validation (sim : naivep2p.Simulator) (start : Nat) (ttl : Int) :
    (naivep2p.initState sim start ttl).flights.length =
      (sim.peers start).length ∧
    (sim.peers start = [] → naivep2p.SendMessageReturns sim start ttl []) ∧
    (∀ entries, naivep2p.sendMessageEpilogue entries = Except.ok entries) := by
  refine ⟨by simp [naivep2p.initState, naivep2p.propagateMessage], ?_, fun _ => rfl⟩
  intro _
  rcases naivep2p.drainTimeouts sim
    (naivep2p.aliveCount (naivep2p.initState sim start ttl))
    (naivep2p.initState sim start ttl) (le_refl _) with ⟨tr, s1, htr, hterm, hlog, _⟩
  exact ⟨tr, s1, htr, hterm, hlog⟩

/-- Witness for C5 (amended) at the out-of-range start index 5 in
the two-node simulator. -/
theorem no_config_validation_witness :
    sim2.peers 5 = [] ∧ naivep2p.SendMessageReturns sim2 5 7 [] :=
  ⟨by decide, (no_config_validation sim2 5 7).2.1 (by decide)⟩

/-- C6 counterexample: in the parallel-link topology `sim2p` the
start node has degree 2, yet a complete ttl = 1 round returns a log
with exactly one entry: the first copy of the seed exhausts the
receiver's hop budget, so the second dispatch can never rendezvous
and is never logged. -/
theorem ttl_one_degree_counterexample :
    (sim2p.peers 0).length = 2 ∧
    naivep2p.SendMessageReturns sim2p 0 1 [⟨0, 1, 1⟩] := by
  refine ⟨by decide, ?_⟩
  exact ⟨[(st2pa, naivep2p.Label.deliver f01), (st2pb, naivep2p.Label.timeout 0)],
    st2pc, trace2p, by decide, by decide⟩

/-- C6 (amended): in any complete ttl = 1 round in which every
dispatched copy of the seed is actually delivered (no copy left
blocked on a terminated receiver — automatic when the start node's
peer list has no duplicates and no timer fires early), the log holds
exactly one entry per peer-table slot of the start node: the (from,
to) pairs are a permutation of the seed fan-out and every entry is a
first hop, so no second-hop entries exist. -/
theorem ttl_one_complete_round (sim : naivep2p.Simulator) (start : Nat)
    (tr : List (naivep2p.SimState × naivep2p.Label)) (s : naivep2p.SimState)
    (h : naivep2p.Trace sim (naivep2p.initState sim start 1) tr s)
    (hterm : naivep2p.Terminal s) (hdeliv : s.flights = []) :
    s.log.length = (sim.peers start).length ∧
    List.Perm (s.log.map naivep2p.pairOfEntry)
      ((sim.peers start).map (fun p => (start, p))) ∧
    (∀ e ∈ s.log, e.hop = 1) := by
  have hinv := naivep2p.oneHopInv_trace h (naivep2p.oneHopInv_initState sim start)
  rcases hinv with ⟨-, hlog, hperm⟩
  rw [hdeliv] at hperm
  simp only [List.map_nil, List.nil_append] at hperm
  refine ⟨?_, hperm, hlog⟩
  have := hperm.length_eq
  simpa using this

/-- Witness for C6 (amended) on the complete ttl = 1 round of
`sim2`, whose terminal state has delivered every dispatch. -/
theorem ttl_one_complete_round_witness :
    st2c.log.length = (sim2.peers 0).length ∧
    List.Perm (st2c.log.map naivep2p.pairOfEntry)
      ((sim2.peers 0).map (fun p => (0, p))) := by
  have h := ttl_one_complete_round sim2 0 _ st2c trace2 (by decide) (by decide)
  exact ⟨h.1, h.2.1⟩

/-- C7 counterexample: the ttl = 1 round of the parallel-link
topology dispatches the seed twice from node 0 to node 1, yet the
complete round creates exactly one log entry — the second dispatch
stays blocked forever on the terminated receiver's channel, so no
entry is ever created for it. -/
theorem dispatch_without_entry :
    (naivep2p.initState sim2p 0 1).flights = [f01, f01] ∧
    naivep2p.SendMessageReturns sim2p 0 1 [⟨0, 1, 1⟩] ∧
    st2pc.flights = [f01] ∧ naivep2p.Terminal st2pc := by
  refine ⟨by decide, ?_, by decide, by decide⟩
  exact ⟨[(st2pa, naivep2p.Label.deliver f01), (st2pb, naivep2p.Label.timeout 0)],
    st2pc, trace2p, by decide, by decide⟩

/-- C7 (amended): each delivered dispatch creates exactly one log
entry {fromIndex, toIndex} — appended unconditionally before the
receiver's dedup verdict, hence independent of whether the message
is then treated as a duplicate — while timeouts create none; a
dispatch to an already-terminated peer is never delivered and so
never creates an entry. -/
theorem one_entry_per_delivery (sim : naivep2p.Simulator) (s : naivep2p.SimState)
    (f : naivep2p.Flight) (ns : naivep2p.NodeState)
    (hns : s.nodes.get? f.dst = some ns) :
    (naivep2p.runNodeStep sim s f).log =
      s.log ++ [({ src := f.src, dst := f.dst, hop := f.hop } : naivep2p.LogEntry)] ∧
    (∀ i, (naivep2p.killNode s i).log = s.log) :=
  ⟨naivep2p.runNodeStep_log hns, fun i => naivep2p.killNode_log s i⟩

/-- Witness for C7 (amended) at the seed delivery of the ttl = 1
round of `sim2`. -/
theorem one_entry_per_delivery_witness :
    st2b.log = st2a.log ++ [({ src := 0, dst := 1, hop := 1 } : naivep2p.LogEntry)] :=
  (one_entry_per_delivery sim2 st2a f01 ⟨[], true⟩ (by decide)).1

/-- C8 (Node statistics): for every topology and report log whose
receiver indices are all valid, `analyzeNodeHits` succeeds and
attributes exactly one hit per log entry to the receiving node keyed
by its stable identifier — the count stored under each identifier is
the number of entries whose receiver maps to it — and the resulting
`NodeCoverage` has actual equal to the number of distinct
identifiers hit and total equal to the topology's node count. -/
theorem analyze_node_hits_coverage (g : List String)
    (entries : List naivep2p.LogEntry)
    (hvalid : ∀ e ∈ entries, e.dst < g.length) :
    ∃ m, stats.analyzeNodeHits g (stats.logEntries2PropagationLog entries) =
        Except.ok m ∧
      (∀ id, stats.hitsOf m id =
        entries.countP (fun e => decide (stats.NodeIDByIdx g e.dst = some id))) ∧
      stats.analyzeNodeCoverage g m =
        stats.NewCoverage
          ((entries.filterMap (fun e => stats.NodeIDByIdx g e.dst)).toFinset.card)
          g.length := by
  have hjs : ∀ j ∈ entries.map (fun e => e.dst), j < g.length := by
    intro j hj
    rcases List.mem_map.mp hj with ⟨e, he, rfl⟩
    exact hvalid e he
  rcases stats.nodeHitsLoop_spec g (entries.map (fun e => e.dst)) [] hjs
      (by simp [stats.keys]) with ⟨m, hok, hcount, hnodup, hkeys⟩
  refine ⟨m, ?_, ?_, ?_⟩
  · unfold stats.analyzeNodeHits stats.logEntries2PropagationLog
    simpa using hok
  · intro id
    rw [hcount id]
    simp only [stats.hitsOf, Nat.zero_add]
    rw [List.countP_map]
    rfl
  · unfold stats.analyzeNodeCoverage
    have hlen : m.length = (stats.keys m).length := by
      simp [stats.keys]
    have hcard : (stats.keys m).toFinset.card = (stats.keys m).length :=
      List.toFinset_card_of_nodup hnodup
    have hset : (stats.keys m).toFinset =
        (entries.filterMap (fun e => stats.NodeIDByIdx g e.dst)).toFinset := by
      rw [hkeys]
      simp only [stats.keys, List.map_nil, List.toFinset_nil, Finset.empty_union,
        List.filterMap_map]
      rfl
    rw [hlen, ← hcard, hset]

/-- Witness for C8 on the two-identifier topology and the log of the
complete ttl = 1 round: node "n1" receives the single hit and
coverage is 1 of 2. -/
theorem analyze_node_hits_coverage_witness :
    stats.analyzeNodeHits ["n0", "n1"] (stats.logEntries2PropagationLog [⟨0, 1, 1⟩]) =
      Except.ok [("n1", 1)] ∧
    stats.hitsOf [("n1", 1)] "n1" =
      List.countP (fun e => decide (stats.NodeIDByIdx ["n0", "n1"] e.dst = some "n1"))
        [(⟨0, 1, 1⟩ : naivep2p.LogEntry)] ∧
    stats.analyzeNodeCoverage ["n0", "n1"] [("n1", 1)] = stats.NewCoverage 1 2 := by
  have heval : stats.analyzeNodeHits ["n0", "n1"]
      (stats.logEntries2PropagationLog [⟨0, 1, 1⟩]) = Except.ok [("n1", 1)] := rfl
  rcases analyze_node_hits_coverage ["n0", "n1"] [⟨0, 1, 1⟩] (by decide) with
    ⟨m, hok, hcount, hcov⟩
  have hm : m = [("n1", 1)] := by
    rw [hok] at heval
    exact Except.ok.inj heval
  subst hm
  exact ⟨heval, hcount "n1", by rw [hcov]; decide⟩

/-- C9 (Idle timer never reset): the idle timer of a node goroutine
is created once at actor start with the fixed 10-second window; no
transition — in particular no message receipt — ever changes the
deadline, and once the clock has reached the deadline the timeout
branch is enabled unconditionally, with no requirement that the
inbox be empty: the actor may idle-terminate even while traffic is
still arriving, rather than only after a quiescence window since its
last message. -/
theorem idle_timer_never_reset :
    (∀ (s s1 : naivep2p.TNodeState) (l : naivep2p.TLabel),
      naivep2p.TStep s l s1 → s1.deadline = s.deadline) ∧
    (∀ t0 : Nat, (naivep2p.TNodeStart t0).deadline = t0 + naivep2p.idleTimeout) ∧
    (∀ s : naivep2p.TNodeState, s.alive = true → s.deadline ≤ s.now →
      naivep2p.TStep s naivep2p.TLabel.fire { s with alive := false }) := by
  refine ⟨?_, fun _ => rfl, fun s h1 h2 => naivep2p.TStep.fire s h1 h2⟩
  intro s s1 l hstep
  cases hstep with
  | tick => rfl
  | arrive m => rfl
  | fire _ _ => rfl
  | recv m rest _ _ =>
      unfold naivep2p.tnodeRecv
      by_cases h1 : m.content ∈ s.cache
      · simp [h1]
      · by_cases h2 : m.ttl - 1 = 0 <;> simp [h1, h2]

/-- Witness for C9 at a node sitting exactly at its deadline with a
sender still blocked on its channel: the fire transition is enabled
although traffic is pending, and a receipt leaves the deadline
unchanged. -/
theorem idle_timer_never_reset_witness :
    (naivep2p.TNodeStart 0).deadline = 0 + naivep2p.idleTimeout ∧
    tnodeBusy.inbox ≠ [] ∧
    naivep2p.TStep tnodeBusy naivep2p.TLabel.fire { tnodeBusy with alive := false } ∧
    (naivep2p.tnodeRecv tnodeBusy ⟨"fresh", 5⟩ []).deadline = tnodeBusy.deadline := by
  refine ⟨idle_timer_never_reset.2.1 0, by decide, ?_, ?_⟩
  · exact idle_timer_never_reset.2.2 tnodeBusy rfl (by decide)
  · exact idle_timer_never_reset.1 tnodeBusy _ naivep2p.TLabel.recv
      (naivep2p.TStep.recv tnodeBusy ⟨"fresh", 5⟩ [] rfl rfl)

/-- C10 (Non-positive ttl disables hop exhaustion): in a round
injected with ttl at most 0, every message in flight in every
reachable state still has a non-positive TTL — so each receipt
decrements it to a strictly negative value — and no step of any
execution is a hop-budget-exhaustion termination: the `TTL == 0`
test never succeeds, and propagation is bounded only by the per-node
dedup caches and the idle timeouts. -/
theorem nonpositive_ttl_never_exhausts (sim : naivep2p.Simulator) (start : Nat)
    (ttl : Int) (tr : List (naivep2p.SimState × naivep2p.Label))
    (s2 : naivep2p.SimState) (h0 : ttl ≤ 0)
    (h : naivep2p.Trace sim (naivep2p.initState sim start ttl) tr s2) :
    (∀ f ∈ s2.flights, f.msg.ttl ≤ 0 ∧ f.msg.ttl - 1 < 0) ∧
    tr.countP naivep2p.isHopExhaustion = 0 := by
  have hinit : naivep2p.NonposInv (naivep2p.initState sim start ttl) := by
    intro f hf
    rcases List.mem_map.mp hf with ⟨p, _, hp⟩
    subst hp
    exact h0
  have hall := naivep2p.nonposInv_trace h hinit
  exact ⟨fun f hf => ⟨hall f hf, by have := hall f hf; omega⟩,
    naivep2p.countP_isHopExhaustion_zero h hinit⟩

/-- Witness for C10 on the complete ttl = 0 round of `sim2`, whose
five steps contain three deliveries and no hop-exhaustion. -/
theorem nonpositive_ttl_never_exhausts_witness :
    (0 : Int) ≤ 0 ∧
    List.countP naivep2p.isHopExhaustion
      [(st0a, naivep2p.Label.deliver g01), (st0b, naivep2p.Label.deliver g10),
        (st0c, naivep2p.Label.deliver g01b), (st0d, naivep2p.Label.timeout 0),
        (st0e, naivep2p.Label.timeout 1)] = 0 :=
  ⟨le_refl 0,
    (nonpositive_ttl_never_exhausts sim2 0 0 _ st0f (le_refl 0) trace0).2⟩
